import Mathlib

/-!
Verification of the potluck-planner server core (`src/server.js`).

The repository holds two interchangeable variants of the persistence layer:
a document-collection (Firestore) backend and a flat-file backend.  Both
share the same in-memory store (a JS `Map` from id to item), the same
validator and the same route handlers.  We embed:

* `Item` — the sole entity (id, name, dish, section, createdAt, updatedAt);
* the insertion-ordered association list `assocSet` / `assocGet` /
  `assocHas` / `assocDelete` modelling the JS `Map` operations used;
* `validateItem` — the pure validator;
* `getItems`, `postItems`, `putItem`, `deleteItem` — the route handlers
  over the flat-file backend, parametrised by the outcome of the durable
  flush (`fsOk`);
* `postItemsFirestore` and the batch reconciliation `reconcile` for the
  document-collection backend, whose `saveToDisk` catches every error.

JS `Map` semantics modelled: `set` on an existing key replaces the value in
place (keeping insertion position), on a fresh key appends; `Map` iteration
order is insertion order.  `String.trim` / `String.toLower` stand in for
JS `trim()` / `toLowerCase()`, and code-point comparison for `localeCompare`.
-/

/-- JS `String.prototype.trim()`: drop leading and trailing whitespace
(modelled on the ASCII whitespace characters). -/
def jsTrim (s : String) : String :=
  ⟨((s.data.dropWhile Char.isWhitespace).reverse.dropWhile Char.isWhitespace).reverse⟩

/-- JS `String.prototype.toLowerCase()` (modelled on ASCII letters). -/
def jsToLower (s : String) : String :=
  ⟨s.data.map Char.toLower⟩

/-- Lexicographic strict comparison on code points: `a.localeCompare(b) < 0`
under the code-point collation the embedding uses for `localeCompare`. -/
def strLt : List Char → List Char → Bool
  | [], [] => false
  | [], _ :: _ => true
  | _ :: _, [] => false
  | c :: as, d :: bs => if c = d then strLt as bs else decide (c < d)

theorem strLt_irrefl : ∀ l : List Char, strLt l l = false
  | [] => rfl
  | _ :: as => by simp [strLt, strLt_irrefl as]

theorem strLt_asymm : ∀ a b : List Char, strLt a b = true → strLt b a = false
  | [], [], h => by simp [strLt] at h
  | [], _ :: _, _ => rfl
  | _ :: _, [], h => by simp [strLt] at h
  | c :: as, d :: bs, h => by
    by_cases hcd : c = d
    · subst hcd
      simp only [strLt, if_pos rfl] at h ⊢
      exact strLt_asymm as bs h
    · simp only [strLt, if_neg hcd] at h
      have hlt : c < d := of_decide_eq_true h
      have hdc : ¬ d = c := fun e => hcd e.symm
      simp only [strLt, if_neg hdc]
      exact decide_eq_false (lt_asymm hlt)

theorem strLt_connex : ∀ a b : List Char, strLt a b = false → strLt b a = false → a = b
  | [], [], _, _ => rfl
  | [], _ :: _, h, _ => by simp [strLt] at h
  | _ :: _, [], _, h => by simp [strLt] at h
  | c :: as, d :: bs, h1, h2 => by
    by_cases hcd : c = d
    · subst hcd
      simp only [strLt, if_pos rfl] at h1 h2
      rw [strLt_connex as bs h1 h2]
    · have hdc : ¬ d = c := fun e => hcd e.symm
      simp only [strLt, if_neg hcd] at h1
      simp only [strLt, if_neg hdc] at h2
      have hn1 : ¬ c < d := of_decide_eq_false h1
      have hn2 : ¬ d < c := of_decide_eq_false h2
      exact absurd (le_antisymm (not_lt.mp hn2) (not_lt.mp hn1)) hcd

theorem strLt_trans : ∀ a b c : List Char,
    strLt a b = true → strLt b c = true → strLt a c = true
  | [], _, _ :: _, _, _ => rfl
  | _, b, [], _, h2 => by cases b <;> simp [strLt] at h2
  | _ :: _, [], _ :: _, h1, _ => by simp [strLt] at h1
  | x :: as, y :: bs, z :: cs, h1, h2 => by
    by_cases hxy : x = y
    · subst hxy
      simp only [strLt, if_pos rfl] at h1
      by_cases hyz : x = z
      · subst hyz
        simp only [strLt, if_pos rfl] at h2 ⊢
        exact strLt_trans as bs cs h1 h2
      · simp only [strLt, if_neg hyz] at h2 ⊢
        exact h2
    · simp only [strLt, if_neg hxy] at h1
      have h1' : x < y := of_decide_eq_true h1
      by_cases hyz : y = z
      · subst hyz
        simp only [strLt, if_neg hxy]
        exact decide_eq_true h1'
      · simp only [strLt, if_neg hyz] at h2
        have h2' : y < z := of_decide_eq_true h2
        have hxz' : x < z := lt_trans h1' h2'
        have hxz : ¬ x = z := by
          intro e
          exact absurd (e ▸ h2' : y < x) (lt_asymm h1')
        simp only [strLt, if_neg hxz]
        exact decide_eq_true hxz'

/-- A potluck item, as stored in `memoryStore.items` and on disk. -/
structure Item where
  id : String
  name : String
  dish : String
  «section» : String
  createdAt : Nat
  updatedAt : Nat
  deriving DecidableEq, Repr

/-- JS `Map` keyed by strings: an insertion-ordered association list. -/
abbrev AssocMap (β : Type) := List (String × β)

/-- The map `memoryStore.items`. -/
abbrev Store := AssocMap Item

/-- JS `map.has(k)`. -/
def assocHas {β : Type} (m : AssocMap β) (k : String) : Bool :=
  m.any (fun p => p.1 == k)

/-- JS `map.get(k)` (as an option). -/
def assocGet {β : Type} (m : AssocMap β) (k : String) : Option β :=
  (m.find? (fun p => p.1 == k)).map (·.2)

/-- JS `map.set(k, v)`: replace in place when the key exists, else append. -/
def assocSet {β : Type} (m : AssocMap β) (k : String) (v : β) : AssocMap β :=
  if assocHas m k then m.map (fun p => if p.1 == k then (k, v) else p)
  else m ++ [(k, v)]

/-- JS `map.delete(k)`. -/
def assocDelete {β : Type} (m : AssocMap β) (k : String) : AssocMap β :=
  m.filter (fun p => p.1 != k)

/-- JS `Array.from(map.values())`: the values in insertion order. -/
def assocValues {β : Type} (m : AssocMap β) : List β :=
  m.map (·.2)

/-- The keys, in insertion order. -/
def assocKeys {β : Type} (m : AssocMap β) : List String :=
  m.map (·.1)

/-- A request body as seen by `validateItem`: each field is `some s` when
the corresponding property is a string (`typeof payload?.x === 'string'`),
`none` when it is absent or not a string; `others` carries any further
properties of the payload, which the validator never reads. -/
structure Payload where
  name : Option String
  dish : Option String
  «section» : Option String
  others : List (String × String) := []

/-- Result shape `{ok, error, value}` returned by `validateItem`. -/
inductive VResult where
  | err (msg : String)
  | ok (name dish «section» : String)
  deriving DecidableEq, Repr

/-- The list `allowed` of the validator. -/
def allowedSections : List String :=
  ["appetizers", "entree", "dessert", "beverages"]

/-- The function `validateItem(payload)` from `src/server.js`. -/
def validateItem (payload : Payload) : VResult :=
  let name := match payload.name with | some s => jsTrim s | none => ""
  let dish := match payload.dish with | some s => jsTrim s | none => ""
  let sec := match payload.«section» with | some s => jsToLower (jsTrim s) | none => ""
  if name = "" then .err "Name is required"
  else if dish = "" then .err "Dish is required"
  else if ¬ allowedSections.contains sec then
    .err "Section must be one of appetizers, entree, dessert, beverages"
  else .ok name dish sec

/-- The validation-error taxonomy of the specification. -/
inductive ValidationError where
  | NameRequired
  | DishRequired
  | InvalidSection
  deriving DecidableEq, Repr

/-- Modelled from the spec: `validate(payload) -> Result<NormalizedItem,
ValidationError>` of §4.1, rules applied in order with first failure
winning, success yielding exactly the normalized `{name, dish, section}`. -/
def specValidate (payload : Payload) : Except ValidationError (String × String × String) :=
  match payload.name with
  | none => .error .NameRequired
  | some n =>
    if jsTrim n = "" then .error .NameRequired
    else match payload.dish with
      | none => .error .DishRequired
      | some d =>
        if jsTrim d = "" then .error .DishRequired
        else match payload.«section» with
          | none => .error .InvalidSection
          | some s =>
            if allowedSections.contains (jsToLower (jsTrim s)) then
              .ok (jsTrim n, jsTrim d, jsToLower (jsTrim s))
            else .error .InvalidSection

/-- The message `validateItem` reports for each spec error kind. -/
def errMsg : ValidationError → String
  | .NameRequired => "Name is required"
  | .DishRequired => "Dish is required"
  | .InvalidSection => "Section must be one of appetizers, entree, dessert, beverages"

/-- View of a spec result as the code's `{ok, error, value}` shape. -/
def ofSpec (r : Except ValidationError (String × String × String)) : VResult :=
  match r with
  | .error e => .err (errMsg e)
  | .ok (n, d, s) => .ok n d s

/-- The comparator of `GET /api/items`:
`a.section.localeCompare(b.section) || a.name.localeCompare(b.name)` is
non-positive, i.e. section strictly smaller, or sections equal and name
not larger. -/
def itemLe (a b : Item) : Prop :=
  strLt a.«section».data b.«section».data = true ∨
    (a.«section» = b.«section» ∧ strLt b.name.data a.name.data = false)

instance : DecidableRel itemLe := fun a b => by
  unfold itemLe; infer_instance

instance : IsTotal Item itemLe where
  total a b := by
    cases hab : strLt a.«section».data b.«section».data
    · cases hba : strLt b.«section».data a.«section».data
      · have hsec : a.«section» = b.«section» :=
          String.toList_inj.mp (strLt_connex _ _ hab hba)
        cases hn : strLt b.name.data a.name.data
        · exact Or.inl (Or.inr ⟨hsec, hn⟩)
        · exact Or.inr (Or.inr ⟨hsec.symm, strLt_asymm _ _ hn⟩)
      · exact Or.inr (Or.inl hba)
    · exact Or.inl (Or.inl hab)

instance : IsTrans Item itemLe where
  trans a b c hab hbc := by
    rcases hab with h1 | ⟨h1e, h1n⟩
    · rcases hbc with h2 | ⟨h2e, _⟩
      · exact Or.inl (strLt_trans _ _ _ h1 h2)
      · refine Or.inl ?_
        rw [← congrArg String.data h2e]
        exact h1
    · rcases hbc with h2 | ⟨h2e, h2n⟩
      · refine Or.inl ?_
        rw [congrArg String.data h1e]
        exact h2
      · refine Or.inr ⟨h1e.trans h2e, ?_⟩
        cases hca : strLt c.name.data a.name.data
        · rfl
        · exfalso
          cases hab2 : strLt a.name.data b.name.data
          · have hdata : a.name.data = b.name.data := strLt_connex _ _ hab2 h1n
            rw [hdata] at hca
            rw [h2n] at hca
            simp at hca
          · have hcb : strLt c.name.data b.name.data = true :=
              strLt_trans _ _ _ hca hab2
            rw [h2n] at hcb
            simp at hcb

/-- Handler of `GET /api/items`: the in-memory values, sorted by section then name
with a stable sort (JS `Array.prototype.sort` is stable). -/
def getItems (m : Store) : List Item :=
  (assocValues m).insertionSort itemLe

/-- Outcome of a route handler: HTTP status, the JSON item returned on
success (if any), and the in-memory store and flat-file contents after
the request. -/
structure OpResult where
  status : Nat
  body : Option Item
  store : Store
  disk : List Item
  deriving Repr, DecidableEq

/-- Flat-file `saveToDisk`: serialize the whole map (`Array.from(values)`)
over the file.  `fsOk` is the outcome of the `fs.writeFile` call; a
rejection propagates to the caller (there is no catch inside). -/
def saveToDisk (fsOk : Bool) (m : Store) : Except Unit (List Item) :=
  if fsOk then .ok (assocValues m) else .error ()

/-- Flat-file `loadFromDisk` body: clear the map, then insert every array
element that is an object with a truthy `id`. -/
def loadFromDisk (arr : List Item) : Store :=
  arr.foldl (fun s it => if it.id ≠ "" then assocSet s it.id it else s) []

/-- Handler of `POST /api/items` over the flat-file backend.  `id` is the token
produced by `Math.random().toString(36).slice(2, 10)` and `now` the value
of `Date.now()`.  On a failed flush the route's catch answers 500; the
in-memory insert is not rolled back. -/
def postItems (fsOk : Bool) (m : Store) (disk : List Item) (body : Payload)
    (id : String) (now : Nat) : OpResult :=
  match validateItem body with
  | .err _ => ⟨400, none, m, disk⟩
  | .ok n d s =>
    let item : Item := ⟨id, n, d, s, now, now⟩
    let m' := assocSet m id item
    match saveToDisk fsOk m' with
    | .ok d' => ⟨201, some item, m', d'⟩
    | .error _ => ⟨500, none, m', disk⟩

/-- Handler of `PUT /api/items/:id` over the flat-file backend: validate first, then
check existence, merge `{...existing, ...value, updatedAt: now}`, flush. -/
def putItem (fsOk : Bool) (m : Store) (disk : List Item) (id : String)
    (body : Payload) (now : Nat) : OpResult :=
  match validateItem body with
  | .err _ => ⟨400, none, m, disk⟩
  | .ok n d s =>
    match assocGet m id with
    | none => ⟨404, none, m, disk⟩
    | some old =>
      let updated : Item :=
        { old with name := n, dish := d, «section» := s, updatedAt := now }
      let m' := assocSet m id updated
      match saveToDisk fsOk m' with
      | .ok d' => ⟨200, some updated, m', d'⟩
      | .error _ => ⟨500, none, m', disk⟩

/-- Handler of `DELETE /api/items/:id` over the flat-file backend. -/
def deleteItem (fsOk : Bool) (m : Store) (disk : List Item) (id : String) :
    OpResult :=
  if assocHas m id then
    let m' := assocDelete m id
    match saveToDisk fsOk m' with
    | .ok d' => ⟨204, none, m', d'⟩
    | .error _ => ⟨500, none, m', disk⟩
  else ⟨404, none, m, disk⟩

/-- The stored fields of a Firestore document for an item: the item minus
its `id` (`const { id: _omit, ...rest } = item`). -/
structure ItemData where
  name : String
  dish : String
  «section» : String
  createdAt : Nat
  updatedAt : Nat
  deriving DecidableEq, Repr

/-- The `rest` of an item. -/
def dataOf (it : Item) : ItemData :=
  ⟨it.name, it.dish, it.«section», it.createdAt, it.updatedAt⟩

/-- The Firestore `items` collection: documents keyed by id. -/
abbrev Backend := AssocMap ItemData

/-- The batch of the Firestore `saveToDisk`: upsert every in-memory item
into its document, then delete every document whose id is not in memory
(set-difference reconciliation), committed atomically. -/
def reconcile (backend : Backend) (m : Store) : Backend :=
  let afterUpserts := m.foldl (fun b p => assocSet b p.1 (dataOf p.2)) backend
  afterUpserts.filter (fun p => assocHas m p.1)

/-- Firestore `saveToDisk`: the whole body sits in `try { ... } catch (err)
{ console.error(...) }`, so a failed commit is logged and swallowed — the
function always resolves.  `fsOk` is the outcome of the batch commit; on
failure the (atomic) batch leaves the collection unchanged. -/
def saveToDiskFirestore (fsOk : Bool) (backend : Backend) (m : Store) : Backend :=
  if fsOk then reconcile backend m else backend

/-- Result of a route handler over the Firestore backend. -/
structure FsOpResult where
  status : Nat
  body : Option Item
  store : Store
  backend : Backend
  deriving Repr, DecidableEq

/-- Handler of `POST /api/items` over the Firestore backend: since `saveToDisk` never
rejects, the handler always answers 201 once validation passed. -/
def postItemsFirestore (fsOk : Bool) (m : Store) (backend : Backend)
    (body : Payload) (id : String) (now : Nat) : FsOpResult :=
  match validateItem body with
  | .err _ => ⟨400, none, m, backend⟩
  | .ok n d s =>
    let item : Item := ⟨id, n, d, s, now, now⟩
    let m' := assocSet m id item
    let backend' := saveToDiskFirestore fsOk backend m'
    ⟨201, some item, m', backend'⟩

theorem getItems_perm (m : Store) : (getItems m).Perm (assocValues m) :=
  List.perm_insertionSort itemLe _

theorem getItems_sorted (m : Store) : (getItems m).Sorted itemLe :=
  List.sorted_insertionSort itemLe _

/-- Mutual `itemLe` pins down the sort key: equal sections and names. -/
theorem itemLe_key_antisymm {a b : Item} (hab : itemLe a b) (hba : itemLe b a) :
    a.«section» = b.«section» ∧ a.name = b.name := by
  rcases hab with h1 | ⟨h1e, h1n⟩
  · rcases hba with h2 | ⟨h2e, _⟩
    · rw [strLt_asymm _ _ h1] at h2
      cases h2
    · rw [congrArg String.data h2e] at h1
      rw [strLt_irrefl] at h1
      cases h1
  · rcases hba with h2 | ⟨h2e, h2n⟩
    · rw [congrArg String.data h1e] at h2
      rw [strLt_irrefl] at h2
      cases h2
    · refine ⟨h1e, ?_⟩
      exact String.toList_inj.mp (strLt_connex _ _ h2n h1n)

/-- A permutation between two `itemLe`-sorted lists whose elements are
determined by their sort key is an equality. -/
theorem sorted_perm_eq_of_key_inj :
    ∀ {l₁ l₂ : List Item}, l₁.Perm l₂ → l₁.Sorted itemLe → l₂.Sorted itemLe →
      (∀ a ∈ l₁, ∀ b ∈ l₁, a.«section» = b.«section» → a.name = b.name → a = b) →
      l₁ = l₂ := by
  intro l₁
  induction l₁ with
  | nil =>
    intro l₂ hp _ _ _
    exact hp.nil_eq
  | cons a t ih =>
    intro l₂ hp hs₁ hs₂ hinj
    cases l₂ with
    | nil =>
      exact absurd hp.eq_nil (by simp)
    | cons b t₂ =>
      by_cases hab : a = b
      · subst hab
        have hp' := hp.cons_inv
        have ht := ih hp' (List.Sorted.of_cons hs₁) (List.Sorted.of_cons hs₂)
          (fun x hx y hy => hinj x (List.mem_cons_of_mem _ hx) y (List.mem_cons_of_mem _ hy))
        rw [ht]
      · exfalso
        have ha2 : a ∈ b :: t₂ := hp.subset (List.mem_cons_self _ _)
        have ha2' : a ∈ t₂ := by
          rcases List.mem_cons.mp ha2 with h | h
          · exact absurd h hab
          · exact h
        have hb1 : b ∈ a :: t := hp.symm.subset (List.mem_cons_self _ _)
        have hb1' : b ∈ t := by
          rcases List.mem_cons.mp hb1 with h | h
          · exact absurd h.symm hab
          · exact h
        have hba : itemLe b a := List.rel_of_sorted_cons hs₂ a ha2'
        have hab' : itemLe a b := List.rel_of_sorted_cons hs₁ b hb1'
        have hkey := itemLe_key_antisymm hab' hba
        exact hab (hinj a (List.mem_cons_self _ _) b (List.mem_cons_of_mem _ hb1')
          hkey.1 hkey.2)

/-- Well-formed store: every entry is keyed by its item's id, keys are
unique (a `Map` guarantees this), and no id is the empty string (falsy). -/
def StoreWF (m : Store) : Prop :=
  (∀ p ∈ m, p.2.id = p.1 ∧ p.1 ≠ "") ∧ (assocKeys m).Nodup

/-! ### Association-map lemmas -/

theorem assocSet_of_not_has {β : Type} {m : AssocMap β} {k : String} (v : β)
    (h : assocHas m k = false) : assocSet m k v = m ++ [(k, v)] := by
  unfold assocSet
  rw [h]
  rfl

theorem assocKeys_append {β : Type} (a b : AssocMap β) :
    assocKeys (a ++ b) = assocKeys a ++ assocKeys b := by
  unfold assocKeys
  exact List.map_append _ a b

theorem assocHas_cons {β : Type} (p : String × β) (rest : AssocMap β) (k : String) :
    assocHas (p :: rest) k = ((p.1 == k) || assocHas rest k) := by
  simp [assocHas]

theorem assocGet_cons {β : Type} (p : String × β) (rest : AssocMap β) (k : String) :
    assocGet (p :: rest) k = if p.1 == k then some p.2 else assocGet rest k := by
  by_cases h : (p.1 == k) = true
  · simp [assocGet, List.find?_cons_of_pos, h]
  · simp only [Bool.not_eq_true] at h
    simp [assocGet, List.find?_cons_of_neg, h]

theorem assocHas_iff {β : Type} (m : AssocMap β) (k : String) :
    assocHas m k = true ↔ k ∈ assocKeys m := by
  simp [assocHas, assocKeys, List.any_eq_true]

theorem assocSet_cons_ne {β : Type} (p : String × β) (rest : AssocMap β)
    (k : String) (v : β) (h : (p.1 == k) = false) :
    assocSet (p :: rest) k v = p :: assocSet rest k v := by
  have hne : ¬ ((p.1 == k) = true) := by simp [h]
  have hcond : assocHas (p :: rest) k = assocHas rest k := by
    rw [assocHas_cons, h, Bool.false_or]
  unfold assocSet
  rw [hcond]
  by_cases hr : assocHas rest k = true
  · rw [if_pos hr, if_pos hr, List.map_cons, if_neg hne]
  · rw [if_neg hr, if_neg hr, List.cons_append]

theorem assocGet_set {β : Type} :
    ∀ (m : AssocMap β) (k : String) (v : β), assocGet (assocSet m k v) k = some v
  | [], k, v => by simp [assocSet, assocHas, assocGet]
  | p :: rest, k, v => by
    by_cases hpk : (p.1 == k) = true
    · have hh : assocHas (p :: rest) k = true := by
        rw [assocHas_cons, hpk, Bool.true_or]
      unfold assocSet
      rw [if_pos hh, List.map_cons, if_pos hpk, assocGet_cons]
      simp
    · have hne : (p.1 == k) = false := by simpa using hpk
      rw [assocSet_cons_ne p rest k v hne, assocGet_cons, if_neg hpk]
      exact assocGet_set rest k v

theorem assocGet_mem {β : Type} :
    ∀ {m : AssocMap β} {k : String} {v : β}, assocGet m k = some v → (k, v) ∈ m := by
  intro m k v h
  induction m with
  | nil => simp [assocGet] at h
  | cons p rest ih =>
    rw [assocGet_cons] at h
    by_cases hpk : (p.1 == k) = true
    · rw [if_pos hpk] at h
      have hk : p.1 = k := by simpa using hpk
      have hv : p.2 = v := by simpa using h
      have hp : (k, v) = p := by
        rw [← hk, ← hv]
      rw [hp]
      exact List.mem_cons_self _ _
    · rw [if_neg (by simp_all)] at h
      exact List.mem_cons_of_mem _ (ih h)

theorem assocHas_of_get {β : Type} {m : AssocMap β} {k : String} {v : β}
    (h : assocGet m k = some v) : assocHas m k = true := by
  induction m with
  | nil => simp [assocGet] at h
  | cons p rest ih =>
    rw [assocGet_cons] at h
    by_cases hpk : (p.1 == k) = true
    · simp [assocHas_cons, hpk]
    · rw [if_neg (by simp_all)] at h
      simp [assocHas_cons, ih h]

theorem mem_keys_set {β : Type} (m : AssocMap β) (k : String) (v : β) (x : String) :
    x ∈ assocKeys (assocSet m k v) ↔ x ∈ assocKeys m ∨ x = k := by
  by_cases h : assocHas m k = true
  · unfold assocSet
    rw [if_pos h]
    have hkeys : assocKeys (m.map (fun p => if p.1 == k then (k, v) else p)) = assocKeys m := by
      unfold assocKeys
      rw [List.map_map]
      apply List.map_congr_left
      intro p _
      by_cases hp : (p.1 == k) = true
      · simp only [Function.comp_apply, if_pos hp]
        exact (by simpa using hp : p.1 = k).symm
      · simp only [Function.comp_apply, if_neg hp]
    rw [hkeys]
    constructor
    · exact Or.inl
    · rintro (hx | rfl)
      · exact hx
      · exact (assocHas_iff m x).mp h
  · unfold assocSet
    rw [if_neg h]
    unfold assocKeys
    simp

theorem mem_keys_foldl_set (x : String) :
    ∀ (m : Store) (b : Backend),
      x ∈ assocKeys (m.foldl (fun b p => assocSet b p.1 (dataOf p.2)) b) ↔
        x ∈ assocKeys b ∨ x ∈ assocKeys m
  | [], b => by simp [assocKeys]
  | p :: rest, b => by
    rw [List.foldl_cons, mem_keys_foldl_set x rest]
    rw [mem_keys_set]
    unfold assocKeys
    simp only [List.map_cons, List.mem_cons]
    tauto

theorem mem_keys_filter_has {β γ : Type} (l : AssocMap β) (m : AssocMap γ) (x : String) :
    x ∈ assocKeys (l.filter (fun p => assocHas m p.1)) ↔
      x ∈ assocKeys l ∧ assocHas m x = true := by
  unfold assocKeys
  simp only [List.mem_map, List.mem_filter]
  constructor
  · rintro ⟨p, ⟨hp, hhas⟩, rfl⟩
    exact ⟨⟨p, hp, rfl⟩, hhas⟩
  · rintro ⟨⟨p, hp, rfl⟩, hhas⟩
    exact ⟨p, ⟨hp, hhas⟩, rfl⟩

theorem assocHas_delete_self {β : Type} (m : AssocMap β) (k : String) :
    assocHas (assocDelete m k) k = false := by
  induction m with
  | nil => rfl
  | cons p rest ih =>
    by_cases hpk : (p.1 == k) = true
    · have hne : (p.1 != k) = false := by simp_all
      unfold assocDelete
      rw [List.filter_cons, if_neg (by simp [hne])]
      simpa [assocDelete] using ih
    · have hne : (p.1 != k) = true := by simp_all
      unfold assocDelete
      rw [List.filter_cons, if_pos hne, assocHas_cons]
      have hfalse : (p.1 == k) = false := by simpa using hpk
      rw [hfalse, Bool.false_or]
      simpa [assocDelete] using ih

theorem id_ne_of_mem_values_delete {m : Store} {k : String}
    (hwf : ∀ p ∈ m, p.2.id = p.1) :
    ∀ v ∈ assocValues (assocDelete m k), v.id ≠ k := by
  intro v hv
  unfold assocValues assocDelete at hv
  rcases List.mem_map.mp hv with ⟨p, hp, rfl⟩
  rcases List.mem_filter.mp hp with ⟨hpm, hpk⟩
  rw [hwf p hpm]
  simpa using hpk

theorem loadFromDisk_foldl :
    ∀ (m acc : Store),
      (∀ p ∈ m, p.2.id = p.1 ∧ p.1 ≠ "") →
      (assocKeys acc ++ assocKeys m).Nodup →
      (assocValues m).foldl
        (fun s it => if it.id ≠ "" then assocSet s it.id it else s) acc = acc ++ m
  | [], acc, _, _ => by
    simp [assocValues]
  | (k, it) :: rest, acc, hwf, hnd => by
    have hid : it.id = k := (hwf (k, it) (List.mem_cons_self _ _)).1
    have hne : k ≠ "" := (hwf (k, it) (List.mem_cons_self _ _)).2
    have hkeys : assocKeys ((k, it) :: rest) = k :: assocKeys rest := rfl
    rw [hkeys] at hnd
    have hknotacc : k ∉ assocKeys acc := by
      have hdisj := List.disjoint_of_nodup_append hnd
      intro hk
      exact hdisj hk (List.mem_cons_self _ _)
    have hhas : assocHas acc k = false := by
      cases hh : assocHas acc k
      · rfl
      · exact absurd ((assocHas_iff acc k).mp hh) hknotacc
    have hstep : assocValues ((k, it) :: rest) = it :: assocValues rest := rfl
    rw [hstep, List.foldl_cons]
    rw [if_pos (by rw [hid]; exact hne), hid, assocSet_of_not_has it hhas]
    have hnd' : (assocKeys (acc ++ [(k, it)]) ++ assocKeys rest).Nodup := by
      rw [assocKeys_append]
      have : (assocKeys acc ++ assocKeys [(k, it)]) ++ assocKeys rest =
          assocKeys acc ++ (k :: assocKeys rest) := by
        rw [List.append_assoc]
        rfl
      rw [this]
      exact hnd
    rw [loadFromDisk_foldl rest (acc ++ [(k, it)])
      (fun p hp => hwf p (List.mem_cons_of_mem _ hp)) hnd']
    rw [List.append_assoc]
    rfl

theorem loadFromDisk_saveToDisk (m : Store) (hwf : StoreWF m) :
    loadFromDisk (assocValues m) = m := by
  unfold loadFromDisk
  have := loadFromDisk_foldl m [] hwf.1 (by simpa [assocKeys] using hwf.2)
  simpa using this

theorem count_values_set :
    ∀ (m : Store) (k : String) (v : Item),
      (∀ p ∈ m, p.2.id = p.1) → (assocKeys m).Nodup → v.id = k →
      (assocValues (assocSet m k v)).count v = 1
  | [], k, v, _, _, _ => by
    simp [assocSet, assocHas, assocValues]
  | (k₁, v₁) :: rest, k, v, hwf, hnd, hv => by
    have hndrest : (assocKeys rest).Nodup := (List.nodup_cons.mp hnd).2
    have hk₁rest : k₁ ∉ assocKeys rest := (List.nodup_cons.mp hnd).1
    by_cases hk : (k₁ == k) = true
    · have hk' : k₁ = k := by simpa using hk
      have hh : assocHas ((k₁, v₁) :: rest) k = true := by
        rw [assocHas_cons, hk, Bool.true_or]
      unfold assocSet
      rw [if_pos hh, List.map_cons, if_pos hk]
      have hmap : rest.map (fun p => if p.1 == k then (k, v) else p) = rest := by
        apply List.map_congr_left ?_ |>.trans (List.map_id rest)
        intro p hp
        have : (p.1 == k) = false := by
          have : p.1 ≠ k := by
            intro he
            exact hk₁rest (hk' ▸ he ▸ List.mem_map.mpr ⟨p, hp, rfl⟩)
          simpa using this
        rw [if_neg (by simp [this])]
        rfl
      rw [hmap]
      have hvnot : v ∉ assocValues rest := by
        intro hmem
        rcases List.mem_map.mp hmem with ⟨p, hp, he⟩
        have : p.2.id = p.1 := hwf p (List.mem_cons_of_mem _ hp)
        rw [he, hv] at this
        exact hk₁rest (hk' ▸ this ▸ List.mem_map.mpr ⟨p, hp, rfl⟩)
      have hcount0 : (assocValues rest).count v = 0 := List.count_eq_zero.mpr hvnot
      show (v :: assocValues rest).count v = 1
      rw [List.count_cons_self, hcount0]
    · have hne : (k₁ == k) = false := by simpa using hk
      rw [assocSet_cons_ne _ rest k v hne]
      have hv₁ : v₁ ≠ v := by
        intro he
        have h1 : v₁.id = k₁ := hwf (k₁, v₁) (List.mem_cons_self _ _)
        rw [he, hv] at h1
        simp [h1] at hne
      show (v₁ :: assocValues (assocSet rest k v)).count v = 1
      rw [List.count_cons_of_ne (fun he => hv₁ he.symm)]
      exact count_values_set rest k v
        (fun p hp => hwf p (List.mem_cons_of_mem _ hp)) hndrest hv


/-! ### Sample data for witnesses and counterexamples -/

/-- A sample stored item. -/
def exA : Item := ⟨"a1", "Amy", "Salad", "dessert", 10, 10⟩

/-- A second item with the same section and name as `exA` but another dish. -/
def exB : Item := ⟨"b1", "Amy", "Pie", "dessert", 11, 11⟩

/-- A third item with a distinct name. -/
def exC : Item := ⟨"c1", "Bob", "Cake", "dessert", 12, 12⟩

/-- A valid creation payload. -/
def exPayload : Payload := ⟨some "Amy", some "Salad", some "dessert", []⟩

/-! ### Claims -/

/-- Claim C1, counterexample: with the document-collection backend a failed flush
is not reported: `saveToDisk` catches the error, so `POST /api/items`
acknowledges 201 although the backend still misses the item the in-memory
map now holds. -/
theorem postItemsFirestore_flush_failure_cx :
    (postItemsFirestore false [] [] exPayload "abc12345" 7).status = 201 ∧
    (postItemsFirestore false [] [] exPayload "abc12345" 7).backend = [] ∧
    assocHas (postItemsFirestore false [] [] exPayload "abc12345" 7).store "abc12345" = true := by
  decide

/-- Claim C1, amended: with the flat-file backend a failed flush after the
in-memory mutation is reported as HTTP 500 for create, update and delete
(the mutation is not rolled back); with the document-collection backend the
flush error is caught and logged inside `saveToDisk` and create still
acknowledges 201, leaving the backend unchanged. -/
theorem flush_failure_reporting
    (m : Store) (disk : List Item) (backend : Backend) (body : Payload)
    (id : String) (now : Nat) (n d s : String) (old : Item)
    (hv : validateItem body = .ok n d s)
    (hg : assocGet m id = some old) :
    (postItems false m disk body id now).status = 500 ∧
    (putItem false m disk id body now).status = 500 ∧
    (deleteItem false m disk id).status = 500 ∧
    (postItemsFirestore false m backend body id now).status = 201 ∧
    (postItemsFirestore false m backend body id now).backend = backend := by
  refine ⟨?_, ?_, ?_, ?_, ?_⟩
  · unfold postItems
    rw [hv]
    rfl
  · unfold putItem
    rw [hv, hg]
    rfl
  · unfold deleteItem
    rw [assocHas_of_get hg]
    rfl
  · unfold postItemsFirestore
    rw [hv]
  · unfold postItemsFirestore
    rw [hv]
    rfl

/-- Witness for C1's amended theorem at a concrete store and payload. -/
theorem flush_failure_reporting_witness :
    validateItem exPayload = .ok "Amy" "Salad" "dessert" ∧
    assocGet [("a1", exA)] "a1" = some exA ∧
    (postItems false [("a1", exA)] [] exPayload "a1" 7).status = 500 ∧
    (postItemsFirestore false [("a1", exA)] [] exPayload "a1" 7).status = 201 :=
  ⟨by decide, by decide,
    (flush_failure_reporting [("a1", exA)] [] [] exPayload "a1" 7 "Amy" "Salad" "dessert" exA
      (by decide) (by decide)).1,
    (flush_failure_reporting [("a1", exA)] [] [] exPayload "a1" 7 "Amy" "Salad" "dessert" exA
      (by decide) (by decide)).2.2.2.1⟩

/-- Claim C2: after a flush the durable backend's id set equals the in-memory
map's id set: the document-collection reconciliation (upsert all desired,
delete existing minus desired) yields exactly the in-memory ids, and the
flat-file flush writes exactly the in-memory items, whose id fields are the
map's keys. -/
theorem flush_id_set_eq :
    (∀ (backend : Backend) (m : Store) (id : String),
      id ∈ assocKeys (reconcile backend m) ↔ id ∈ assocKeys m) ∧
    (∀ m : Store, (∀ p ∈ m, p.2.id = p.1) →
      saveToDisk true m = .ok (assocValues m) ∧
      (assocValues m).map Item.id = assocKeys m) := by
  constructor
  · intro backend m id
    unfold reconcile
    rw [mem_keys_filter_has, mem_keys_foldl_set]
    constructor
    · rintro ⟨_, h⟩
      exact (assocHas_iff m id).mp h
    · intro h
      exact ⟨Or.inr h, (assocHas_iff m id).mpr h⟩
  · intro m hwf
    refine ⟨rfl, ?_⟩
    unfold assocValues assocKeys
    rw [List.map_map]
    apply List.map_congr_left
    intro p hp
    exact hwf p hp

/-- Witness for C2 at a concrete backend and store. -/
theorem flush_id_set_eq_witness :
    ("a1" ∈ assocKeys (reconcile [("zz", dataOf exB)] [("a1", exA)]) ↔
      "a1" ∈ assocKeys [("a1", exA)]) ∧
    (assocValues [("a1", exA)]).map Item.id = assocKeys [("a1", exA)] :=
  ⟨flush_id_set_eq.1 [("zz", dataOf exB)] [("a1", exA)] "a1",
    (flush_id_set_eq.2 [("a1", exA)] (by decide)).2⟩

/-- Claim C3: `validateItem` implements exactly the specification's `validate`:
rules in order with first failure winning (`NameRequired`, `DishRequired`,
`InvalidSection`), success yielding exactly the trimmed `name` and `dish`
and the trimmed, lowercased `section`; all other payload fields are
ignored. -/
theorem validateItem_refines_specValidate :
    (∀ p : Payload, validateItem p = ofSpec (specValidate p)) ∧
    (∀ (p : Payload) (o : List (String × String)),
      validateItem { p with others := o } = validateItem p) := by
  constructor
  · intro p
    rcases p with ⟨pn, pd, ps, po⟩
    cases pn with
    | none => rfl
    | some n =>
      by_cases hn : jsTrim n = ""
      · simp [validateItem, specValidate, ofSpec, errMsg, hn]
      · cases pd with
        | none => simp [validateItem, specValidate, ofSpec, errMsg, hn]
        | some d =>
          by_cases hd : jsTrim d = ""
          · simp [validateItem, specValidate, ofSpec, errMsg, hn, hd]
          · cases ps with
            | none =>
              have hmem : ("" : String) ∉ allowedSections := by decide
              simp [validateItem, specValidate, ofSpec, errMsg, hn, hd, hmem]
            | some s =>
              by_cases hs : jsToLower (jsTrim s) ∈ allowedSections
              · simp [validateItem, specValidate, ofSpec, errMsg, hn, hd, hs]
              · simp [validateItem, specValidate, ofSpec, errMsg, hn, hd, hs]
  · intro p o
    rfl

/-- Claim C4, counterexample: the output of `list` is not determined by the item
set alone.  Two stores holding the same two items (same section `dessert`,
same name `Amy`, different dishes) in different insertion orders produce
different outputs, because the stable sort breaks the full tie by insertion
order. -/
theorem getItems_same_set_not_deterministic :
    (assocValues [("a1", exA), ("b1", exB)]).Perm
      (assocValues [("b1", exB), ("a1", exA)]) ∧
    getItems [("a1", exA), ("b1", exB)] ≠ getItems [("b1", exB), ("a1", exA)] := by
  constructor
  · exact List.Perm.swap exB exA []
  · decide

/-- Claim C4, amended: `list` returns all items (a permutation of the stored
values) sorted by section then name, both ascending, ties on equal sections
broken by name; the output is deterministic given the store state, and
deterministic given the item set alone whenever no two stored items agree
on both section and name. -/
theorem getItems_sorted_and_deterministic :
    (∀ m : Store, (getItems m).Sorted itemLe ∧ (getItems m).Perm (assocValues m)) ∧
    (∀ m₁ m₂ : Store, (assocValues m₁).Perm (assocValues m₂) →
      (∀ a ∈ assocValues m₁, ∀ b ∈ assocValues m₁,
        a.«section» = b.«section» → a.name = b.name → a = b) →
      getItems m₁ = getItems m₂) := by
  constructor
  · intro m
    exact ⟨getItems_sorted m, getItems_perm m⟩
  · intro m₁ m₂ hperm hinj
    apply sorted_perm_eq_of_key_inj
      ((getItems_perm m₁).trans (hperm.trans (getItems_perm m₂).symm))
      (getItems_sorted m₁) (getItems_sorted m₂)
    intro a ha b hb
    exact hinj a ((getItems_perm m₁).subset ha) b ((getItems_perm m₁).subset hb)

/-- Witness for C4's amended theorem: two stores with the same items (with
pairwise distinct section/name keys) in different orders list identically. -/
theorem getItems_sorted_and_deterministic_witness :
    (getItems [("a1", exA), ("c1", exC)]).Sorted itemLe ∧
    getItems [("a1", exA), ("c1", exC)] = getItems [("c1", exC), ("a1", exA)] :=
  ⟨(getItems_sorted_and_deterministic.1 [("a1", exA), ("c1", exC)]).1,
    getItems_sorted_and_deterministic.2 [("a1", exA), ("c1", exC)]
      [("c1", exC), ("a1", exA)] (List.Perm.swap exC exA []) (by decide)⟩

/-- Claim C5: with an existing id and a valid payload, `PUT` answers 200 with the
item obtained by merging the normalized fields over the existing item and
stamping `updatedAt = now`; `id` and `createdAt` are unchanged and the
store maps the id to the updated item.  With an absent id it answers 404
and leaves the store unchanged. -/
theorem putItem_update_spec :
    (∀ (m : Store) (disk : List Item) (id : String) (body : Payload) (now : Nat)
       (n d s : String) (old : Item),
      validateItem body = .ok n d s →
      assocGet m id = some old →
      (putItem true m disk id body now).status = 200 ∧
      (putItem true m disk id body now).body =
        some { old with name := n, dish := d, «section» := s, updatedAt := now } ∧
      (putItem true m disk id body now).store =
        assocSet m id { old with name := n, dish := d, «section» := s, updatedAt := now } ∧
      assocGet (putItem true m disk id body now).store id =
        some { old with name := n, dish := d, «section» := s, updatedAt := now } ∧
      ({ old with name := n, dish := d, «section» := s, updatedAt := now } : Item).id =
        old.id ∧
      ({ old with name := n, dish := d, «section» := s, updatedAt := now } : Item).createdAt =
        old.createdAt) ∧
    (∀ (fsOk : Bool) (m : Store) (disk : List Item) (id : String) (body : Payload)
       (now : Nat) (n d s : String),
      validateItem body = .ok n d s →
      assocGet m id = none →
      (putItem fsOk m disk id body now).status = 404 ∧
      (putItem fsOk m disk id body now).store = m) := by
  constructor
  · intro m disk id body now n d s old hv hg
    unfold putItem
    rw [hv, hg]
    refine ⟨rfl, rfl, rfl, ?_, rfl, rfl⟩
    exact assocGet_set m id _
  · intro fsOk m disk id body now n d s hv hg
    unfold putItem
    rw [hv, hg]
    exact ⟨rfl, rfl⟩

/-- Witness for C5 at a concrete store and update payload. -/
theorem putItem_update_spec_witness :
    (putItem true [("a1", exA)] [] "a1"
      ⟨some "Amy", some "Fruit Salad", some "dessert", []⟩ 99).status = 200 ∧
    (putItem true [("a1", exA)] [] "a1"
      ⟨some "Amy", some "Fruit Salad", some "dessert", []⟩ 99).body =
      some ⟨"a1", "Amy", "Fruit Salad", "dessert", 10, 99⟩ ∧
    (putItem true [("zz", exB)] [] "a1"
      ⟨some "Amy", some "Fruit Salad", some "dessert", []⟩ 99).status = 404 :=
  ⟨(putItem_update_spec.1 [("a1", exA)] [] "a1"
      ⟨some "Amy", some "Fruit Salad", some "dessert", []⟩ 99 "Amy" "Fruit Salad" "dessert"
      exA (by decide) (by decide)).1,
    (putItem_update_spec.1 [("a1", exA)] [] "a1"
      ⟨some "Amy", some "Fruit Salad", some "dessert", []⟩ 99 "Amy" "Fruit Salad" "dessert"
      exA (by decide) (by decide)).2.1,
    (putItem_update_spec.2 true [("zz", exB)] [] "a1"
      ⟨some "Amy", some "Fruit Salad", some "dessert", []⟩ 99 "Amy" "Fruit Salad" "dessert"
      (by decide) (by decide)).1⟩

/-- Every payload with a missing (or non-string) `name`, `dish` or
`section` field is rejected by `validateItem`. -/
theorem validateItem_err_of_missing (body : Payload)
    (h : body.name = none ∨ body.dish = none ∨ body.«section» = none) :
    ∃ e, validateItem body = .err e := by
  rcases body with ⟨pn, pd, ps, po⟩
  rcases h with h | h | h
  · subst h
    exact ⟨_, rfl⟩
  · subst h
    cases pn with
    | none => exact ⟨_, rfl⟩
    | some a =>
      by_cases ha : jsTrim a = ""
      · exact ⟨"Name is required", by simp [validateItem, ha]⟩
      · exact ⟨"Dish is required", by simp [validateItem, ha]⟩
  · subst h
    cases pn with
    | none => exact ⟨_, rfl⟩
    | some a =>
      by_cases ha : jsTrim a = ""
      · exact ⟨"Name is required", by simp [validateItem, ha]⟩
      · cases pd with
        | none => exact ⟨"Dish is required", by simp [validateItem, ha]⟩
        | some b =>
          by_cases hb : jsTrim b = ""
          · exact ⟨"Dish is required", by simp [validateItem, ha, hb]⟩
          · refine ⟨"Section must be one of appetizers, entree, dessert, beverages", ?_⟩
            have hmem : ("" : String) ∉ allowedSections := by decide
            simp [validateItem, ha, hb, hmem]

/-- Claim C6, counterexample: an update payload omitting `section` (otherwise
valid, addressed to an existing id) does not succeed: `PUT` answers 400
and leaves the store unchanged, because `validateItem` requires all three
fields on update as well. -/
theorem putItem_omitted_field_cx :
    (putItem true [("a1", exA)] [] "a1"
      ⟨some "Amy", some "Fruit Salad", none, []⟩ 5).status = 400 ∧
    (putItem true [("a1", exA)] [] "a1"
      ⟨some "Amy", some "Fruit Salad", none, []⟩ 5).body = none ∧
    (putItem true [("a1", exA)] [] "a1"
      ⟨some "Amy", some "Fruit Salad", none, []⟩ 5).store = [("a1", exA)] := by
  decide

/-- Claim C6, amended: an update payload must supply all of `name`, `dish` and
`section`; omitting any of them makes `PUT` fail validation with 400 and
leave the store untouched (merge semantics only preserves the fields
outside the payload schema, namely `id` and `createdAt`). -/
theorem putItem_omitted_field_rejected
    (fsOk : Bool) (m : Store) (disk : List Item) (id : String) (body : Payload)
    (now : Nat)
    (h : body.name = none ∨ body.dish = none ∨ body.«section» = none) :
    (putItem fsOk m disk id body now).status = 400 ∧
    (putItem fsOk m disk id body now).store = m ∧
    (putItem fsOk m disk id body now).body = none := by
  rcases validateItem_err_of_missing body h with ⟨e, he⟩
  unfold putItem
  rw [he]
  exact ⟨rfl, rfl, rfl⟩

/-- Witness for C6's amended theorem. -/
theorem putItem_omitted_field_rejected_witness :
    ((⟨some "Amy", some "Fruit Salad", none, []⟩ : Payload).name = none ∨
      (⟨some "Amy", some "Fruit Salad", none, []⟩ : Payload).dish = none ∨
      (⟨some "Amy", some "Fruit Salad", none, []⟩ : Payload).«section» = none) ∧
    (putItem true [("a1", exA)] [] "a1"
      ⟨some "Amy", some "Fruit Salad", none, []⟩ 5).status = 400 :=
  ⟨Or.inr (Or.inr rfl),
    (putItem_omitted_field_rejected true [("a1", exA)] [] "a1"
      ⟨some "Amy", some "Fruit Salad", none, []⟩ 5 (Or.inr (Or.inr rfl))).1⟩

/-- Claim C7: deleting an absent id answers 404 and leaves the store unchanged;
deleting a present id answers 204, removes the entry, makes the deleted
item disappear from subsequent `list` output, and a subsequent delete of
the same id answers 404. -/
theorem deleteItem_spec :
    (∀ (fsOk : Bool) (m : Store) (disk : List Item) (id : String),
      assocHas m id = false →
      (deleteItem fsOk m disk id).status = 404 ∧
      (deleteItem fsOk m disk id).store = m) ∧
    (∀ (m : Store) (disk : List Item) (id : String) (old : Item),
      (∀ p ∈ m, p.2.id = p.1) →
      assocGet m id = some old →
      (deleteItem true m disk id).status = 204 ∧
      (deleteItem true m disk id).store = assocDelete m id ∧
      old ∉ getItems (deleteItem true m disk id).store ∧
      (∀ (fsOk₂ : Bool) (disk₂ : List Item),
        (deleteItem fsOk₂ (assocDelete m id) disk₂ id).status = 404)) := by
  constructor
  · intro fsOk m disk id h
    unfold deleteItem
    rw [h]
    exact ⟨rfl, rfl⟩
  · intro m disk id old hwf hg
    have hid : old.id = id := hwf (id, old) (assocGet_mem hg)
    refine ⟨?_, ?_, ?_, ?_⟩
    · unfold deleteItem
      rw [assocHas_of_get hg]
      rfl
    · unfold deleteItem
      rw [assocHas_of_get hg]
      rfl
    · intro hmem
      have hv : old ∈ assocValues (assocDelete m id) := by
        refine (getItems_perm (assocDelete m id)).subset ?_
        have hstore : (deleteItem true m disk id).store = assocDelete m id := by
          unfold deleteItem
          rw [assocHas_of_get hg]
          rfl
        rw [hstore] at hmem
        exact hmem
      exact id_ne_of_mem_values_delete hwf old hv hid
    · intro fsOk₂ disk₂
      unfold deleteItem
      rw [assocHas_delete_self]
      rfl

/-- Witness for C7 at a concrete store. -/
theorem deleteItem_spec_witness :
    assocHas [("a1", exA)] "zz" = false ∧
    (deleteItem true [("a1", exA)] [] "zz").status = 404 ∧
    (deleteItem true [("a1", exA)] [] "a1").status = 204 ∧
    exA ∉ getItems (deleteItem true [("a1", exA)] [] "a1").store :=
  ⟨by decide,
    (deleteItem_spec.1 true [("a1", exA)] [] "zz" (by decide)).1,
    (deleteItem_spec.2 [("a1", exA)] [] "a1" exA (by decide) (by decide)).1,
    (deleteItem_spec.2 [("a1", exA)] [] "a1" exA (by decide) (by decide)).2.2.1⟩

/-- Claim C8: the flat-file flush writes exactly the in-memory items, and
reloading that array (the simulated restart) rebuilds exactly the same
store; moreover a create followed by `list` contains the new item exactly
once, with `createdAt = updatedAt`. -/
theorem saveLoad_roundtrip_and_create_list :
    (∀ m : Store, StoreWF m →
      saveToDisk true m = .ok (assocValues m) ∧
      loadFromDisk (assocValues m) = m) ∧
    (∀ (m : Store) (disk : List Item) (body : Payload) (id : String) (now : Nat)
       (n d s : String),
      StoreWF m →
      validateItem body = .ok n d s →
      (postItems true m disk body id now).body = some ⟨id, n, d, s, now, now⟩ ∧
      (⟨id, n, d, s, now, now⟩ : Item).createdAt =
        (⟨id, n, d, s, now, now⟩ : Item).updatedAt ∧
      (getItems (postItems true m disk body id now).store).count
        ⟨id, n, d, s, now, now⟩ = 1) := by
  constructor
  · intro m hwf
    exact ⟨rfl, loadFromDisk_saveToDisk m hwf⟩
  · intro m disk body id now n d s hwf hv
    unfold postItems
    rw [hv]
    refine ⟨rfl, rfl, ?_⟩
    show (getItems (assocSet m id ⟨id, n, d, s, now, now⟩)).count _ = 1
    rw [(getItems_perm _).count_eq]
    exact count_values_set m id _ (fun p hp => (hwf.1 p hp).1) hwf.2 rfl

/-- Witness for C8 at a concrete store and payload. -/
theorem saveLoad_roundtrip_and_create_list_witness :
    loadFromDisk (assocValues [("a1", exA), ("c1", exC)]) = [("a1", exA), ("c1", exC)] ∧
    (getItems (postItems true [("a1", exA)] [] exPayload "n1" 42).store).count
      ⟨"n1", "Amy", "Salad", "dessert", 42, 42⟩ = 1 :=
  ⟨(saveLoad_roundtrip_and_create_list.1 [("a1", exA), ("c1", exC)]
      (by constructor <;> decide)).2,
    (saveLoad_roundtrip_and_create_list.2 [("a1", exA)] [] exPayload "n1" 42
      "Amy" "Salad" "dessert" (by constructor <;> decide) (by decide)).2.2⟩

/-- Claim C9: `PUT` validates the body before checking existence, so an invalid
body always answers 400 (store untouched) whether or not the target id is
in the store. -/
theorem putItem_validation_before_existence
    (fsOk : Bool) (m : Store) (disk : List Item) (id : String) (body : Payload)
    (now : Nat) (e : String)
    (hv : validateItem body = .err e) :
    (putItem fsOk m disk id body now).status = 400 ∧
    (putItem fsOk m disk id body now).store = m := by
  unfold putItem
  rw [hv]
  exact ⟨rfl, rfl⟩

/-- Witness for C9: an invalid body addressed to a nonexistent id yields
400, not 404. -/
theorem putItem_validation_before_existence_witness :
    validateItem ⟨some "Amy", some "Salad", some "soup", []⟩ =
      .err "Section must be one of appetizers, entree, dessert, beverages" ∧
    assocHas [("a1", exA)] "zz" = false ∧
    (putItem true [("a1", exA)] [] "zz"
      ⟨some "Amy", some "Salad", some "soup", []⟩ 5).status = 400 :=
  ⟨by decide, by decide,
    (putItem_validation_before_existence true [("a1", exA)] [] "zz"
      ⟨some "Amy", some "Salad", some "soup", []⟩ 5
      "Section must be one of appetizers, entree, dessert, beverages" (by decide)).1⟩

/-- Claim C10: a create whose generated id already keys an item replaces that
item in place: the request still answers 201, the store size does not
grow, and the key now maps to the new item (the previous one is gone). -/
theorem postItems_collision_replaces
    (m : Store) (disk : List Item) (body : Payload) (id : String) (now : Nat)
    (n d s : String) (old : Item)
    (hv : validateItem body = .ok n d s)
    (hg : assocGet m id = some old) :
    (postItems true m disk body id now).status = 201 ∧
    ((postItems true m disk body id now).store).length = m.length ∧
    assocGet ((postItems true m disk body id now).store) id =
      some ⟨id, n, d, s, now, now⟩ := by
  unfold postItems
  rw [hv]
  refine ⟨rfl, ?_, ?_⟩
  · show (assocSet m id ⟨id, n, d, s, now, now⟩).length = m.length
    unfold assocSet
    rw [if_pos (assocHas_of_get hg), List.length_map]
  · exact assocGet_set m id _

/-- Witness for C10: creating over an occupied key keeps the store size at
one and overwrites the stored item. -/
theorem postItems_collision_replaces_witness :
    ((postItems true [("a1", exB)] [] exPayload "a1" 42).store).length = 1 ∧
    assocGet ((postItems true [("a1", exB)] [] exPayload "a1" 42).store) "a1" =
      some ⟨"a1", "Amy", "Salad", "dessert", 42, 42⟩ :=
  ⟨(postItems_collision_replaces [("a1", exB)] [] exPayload "a1" 42
      "Amy" "Salad" "dessert" exB (by decide) (by decide)).2.1,
    (postItems_collision_replaces [("a1", exB)] [] exPayload "a1" 42
      "Amy" "Salad" "dessert" exB (by decide) (by decide)).2.2⟩
